import Mathlib

/-!
A shallow embedding of the CloudFormation stack reconciliation module
(`cloud/amazon/cloudformation.py`): the throttling retry loop
(`invoke_with_throttling_retries`), the stack observer
(`CloudFormationStack._load_current_stack`), the dry-run planner
(`check` / `planned_changes`) with its parameter and template diffing
(`diff_json`), and the lifecycle polling loop (`stack_operation`),
together with theorems settling the specification's claims about them.
-/

namespace CloudFormation

/-- Source: `IGNORE_CODE = 'Throttling'`. -/
def IGNORE_CODE : String := "Throttling"

/-- Source: `MAX_RETRIES=3`. -/
def MAX_RETRIES : Nat := 3

/-- Outcome of one invocation of the operation wrapped by the retry loop: a
return value, a `BotoServerError` carrying its error code, or any other
exception (which the retry loop's `except` clause does not catch). -/
inductive CallResult (α : Type) where
  | retval (v : α)
  | botoError (code : String)
  | otherError
deriving DecidableEq, Repr

/-- Result of running `invoke_with_throttling_retries`: the value returned or
the exception raised, the number of invocations of the operation that were
made, and the sequence of `time.sleep` delays performed (seconds, in order). -/
inductive InvokeOutcome (α : Type) where
  | returned (v : α) (attempts : Nat) (sleeps : List Nat)
  | raisedBoto (code : String) (attempts : Nat) (sleeps : List Nat)
  | raisedOther (attempts : Nat) (sleeps : List Nat)
deriving DecidableEq, Repr

/-- Record one `time.sleep` that happened before the rest of the run. -/
def addSleep {α : Type} (s : Nat) : InvokeOutcome α → InvokeOutcome α
  | .returned v a sl => .returned v a (s :: sl)
  | .raisedBoto c a sl => .raisedBoto c a (s :: sl)
  | .raisedOther a sl => .raisedOther a (s :: sl)

/-- Number of invocations of the wrapped operation recorded in an outcome. -/
def InvokeOutcome.attemptCount {α : Type} : InvokeOutcome α → Nat
  | .returned _ a _ => a
  | .raisedBoto _ a _ => a
  | .raisedOther a _ => a

/-- The `time.sleep` delays recorded in an outcome, in order. -/
def InvokeOutcome.sleepList {α : Type} : InvokeOutcome α → List Nat
  | .returned _ _ sl => sl
  | .raisedBoto _ _ sl => sl
  | .raisedOther _ sl => sl

/-- The `while True` body of `invoke_with_throttling_retries`, entered with
the current value of `retries`; `f n` is the outcome of the `n`-th invocation
of `function_ref` (0-based, and the `n`-th invocation runs with
`retries = n`).  On `retval` the value is returned; on a non-`BotoServerError`
exception it propagates; on a `BotoServerError` the loop re-raises it when
`e.code != IGNORE_CODE or retries == MAX_RETRIES`, and otherwise sleeps
`5 * (2**retries)` seconds and retries.  Since `retries` starts at 0 and only
ever grows by 1, the source's `retries == MAX_RETRIES` test coincides with
`MAX_RETRIES ≤ retries`, which this definition uses so that the recursion is
visibly bounded. -/
def invokeGo {α : Type} (f : Nat → CallResult α) (retries : Nat) : InvokeOutcome α :=
  match f retries with
  | .retval v => .returned v (retries + 1) []
  | .otherError => .raisedOther (retries + 1) []
  | .botoError code =>
    if code ≠ IGNORE_CODE ∨ MAX_RETRIES ≤ retries then
      .raisedBoto code (retries + 1) []
    else
      addSleep (5 * 2 ^ retries) (invokeGo f (retries + 1))
termination_by MAX_RETRIES + 1 - retries
decreasing_by simp only [MAX_RETRIES] at *; omega

/-- Source: `invoke_with_throttling_retries(function_ref, *argv)`, with the
successive outcomes of `function_ref(*argv)` given by `f`. -/
def invoke_with_throttling_retries {α : Type} (f : Nat → CallResult α) : InvokeOutcome α :=
  invokeGo f 0

/-- A Python value as it can appear in the `template_parameters` dict supplied
to the module (string, integer or boolean). -/
inductive PyVal where
  | pstr (s : String)
  | pint (n : Int)
  | pbool (b : Bool)
deriving DecidableEq, Repr

/-- Python truthiness of such a value (`if new_value and ...`). -/
def PyVal.truthy : PyVal → Bool
  | .pstr s => s != ""
  | .pint n => n != 0
  | .pbool b => b

/-- Python `str(...)` on such a value. -/
def PyVal.pyStr : PyVal → String
  | .pstr s => s
  | .pint n => toString n
  | .pbool b => if b then "True" else "False"

/-- Python `dict.get k`: the first binding of `k`, if any. -/
def plookup : List (String × PyVal) → String → Option PyVal
  | [], _ => none
  | (k', v) :: rest, k => if k' = k then some v else plookup rest k

/-- The parameter-delta loop of `planned_changes`: iterate over the current
(observed) parameters `(old.key, old.value)`; look up `old.key` in the target
parameter dict; when the target value is truthy and its `str` form differs
from the current value, record `(key, from, to)` where `to` is the raw target
value. -/
def params_delta (current : List (String × String)) (target : List (String × PyVal)) :
    List (String × String × PyVal) :=
  match current with
  | [] => []
  | (k, v) :: rest =>
    (match plookup target k with
     | some nv => if nv.truthy && (nv.pyStr != v) then [(k, v, nv)] else []
     | none => []) ++ params_delta rest target

/-- Outcome of the remote `describe_stacks` call made by
`_load_current_stack`: the stack was found (with its outputs, template body
and parameters, the follow-up fetches being folded into the snapshot), the
call raised a `BotoServerError` carrying some message, or the call raised any
other exception. -/
inductive DescribeOutcome where
  | found (outputs : List (String × String)) (templateBody : String)
      (parameters : List (String × String))
  | botoServerError (message : String)
  | otherError
deriving Repr

/-- The observed-state fields of a `CloudFormationStack` after
`_load_current_stack` ran: `present`, `current_template`,
`current_parameters` and `current_outputs` (the first three start as
`False` / `None` / `None` in `__init__`, the outputs as an empty dict). -/
structure LoadedState where
  present : Bool
  current_template : Option String
  current_parameters : Option (List (String × String))
  current_outputs : List (String × String)
deriving DecidableEq, Repr

/-- Source: `_load_current_stack`.  `describe_stacks` succeeding sets
`present = True` and fills template, parameters and outputs; a
`BotoServerError` of any kind is caught and the method returns with the
`__init__` defaults left in place; any other exception propagates
(modelled as `.error ()`). -/
def load_current_stack : DescribeOutcome → Except Unit LoadedState
  | .found outs tmpl params => .ok ⟨true, some tmpl, some params, outs⟩
  | .botoServerError _ => .ok ⟨false, none, none, []⟩
  | .otherError => .error ()

/-- One successful `describe_stacks` snapshot seen by the polling loop:
`stack.stack_status` plus the event trail `map(str, list(stack.describe_events()))`
that would be captured from this snapshot. -/
structure StackSnapshot where
  stack_status : String
  events : List String
deriving DecidableEq, Repr

/-- One iteration's describe outcome inside `stack_operation`: either the
(throttling-retried) `describe_stacks` call returns a stack, or it raises —
the bare `except:` catches every exception kind alike. -/
inductive PollStep where
  | ok (s : StackSnapshot)
  | exnStep
deriving DecidableEq, Repr

/-- The result dict built by `stack_operation` (`failed` defaults to absent,
modelled `false`; `events` is absent in the `Stack Not Found` case). -/
structure OpResult where
  changed : Bool
  failed : Bool
  output : String
  events : Option (List String)
deriving DecidableEq, Repr

/-- The `while operation_complete == False` loop of `stack_operation`, with
`lastStack` the snapshot from the most recent successful describe (so
`lastStack.isSome` iff `'yes' in existed`).  The trace lists the successive
describe outcomes; the loop consumes one per iteration.  Returns the result
dict it breaks with, paired with the list of `time.sleep(5)` delays it
performed; `none` when the trace is exhausted with the loop still running. -/
def stackOpGo (operation : String) (lastStack : Option StackSnapshot) :
    List PollStep → Option OpResult × List Nat
  | [] => (none, [])
  | .exnStep :: _ =>
    match lastStack with
    | some st => (some ⟨true, false, "Stack Deleted", some st.events⟩, [])
    | none => (some ⟨true, false, "Stack Not Found", none⟩, [])
  | .ok st :: rest =>
    if operation ++ "_COMPLETE" = st.stack_status then
      (some ⟨true, false, "Stack " ++ operation ++ " complete", some st.events⟩, [])
    else if "ROLLBACK_COMPLETE" = st.stack_status ∨
        operation ++ "_ROLLBACK_COMPLETE" = st.stack_status then
      (some ⟨true, true, "Problem with " ++ operation ++ ". Rollback complete",
        some st.events⟩, [])
    else if operation ++ "_FAILED" = st.stack_status then
      (some ⟨true, true, "Stack " ++ operation ++ " failed", some st.events⟩, [])
    else
      let r := stackOpGo operation (some st) rest
      (r.1, 5 :: r.2)

/-- Source: `stack_operation(cfn, stack_name, operation)`, run against a trace
of describe outcomes. -/
def stack_operation (operation : String) (trace : List PollStep) :
    Option OpResult × List Nat :=
  stackOpGo operation none trace

/-- A parsed JSON document node as `json.loads` produces it: string, integer
(the model restricts numbers to integers), boolean, `None`, list, or dict
represented as an association list with (in any dict `json.loads` yields)
unique keys. -/
inductive JVal where
  | jstr (s : String)
  | jnum (n : Int)
  | jbool (b : Bool)
  | jnull
  | jarr (xs : List JVal)
  | jobj (kvs : List (String × JVal))
deriving Repr

/-- Python dict indexing `d[k]` / membership: the first binding of `k`. -/
def jlookup : List (String × JVal) → String → Option JVal
  | [], _ => none
  | (k', v) :: rest, k => if k' = k then some v else jlookup rest k

/-- The key set `current_keys.union(target_keys)` iterated by `diff_json`,
as a duplicate-free list. -/
def unionKeys (current target : List (String × JVal)) : List String :=
  ((current.map Prod.fst) ++ (target.map Prod.fst)).dedup

/-- A value reached by dict lookup is structurally smaller than the dict. -/
theorem jlookup_sizeOf {l : List (String × JVal)} {k : String} {v : JVal}
    (h : jlookup l k = some v) : sizeOf v < sizeOf l := by
  induction l with
  | nil => simp [jlookup] at h
  | cons p rest ih =>
    obtain ⟨k', v'⟩ := p
    rw [jlookup] at h
    split at h
    · cases h
      simp
      omega
    · have := ih h
      simp
      omega

/-- Python `==` on parsed JSON values: strings, numbers and `None` compare
structurally, `bool` and `int` cross-compare (`True == 1`, `False == 0`),
lists compare element-wise, and dicts compare as maps — equal key sets and
`==`-equal values — regardless of insertion order. -/
def pyEq : JVal → JVal → Bool
  | .jstr a, .jstr b => a == b
  | .jnum a, .jnum b => a == b
  | .jbool a, .jbool b => a == b
  | .jbool a, .jnum b => (if a then (1 : Int) else 0) == b
  | .jnum a, .jbool b => a == (if b then (1 : Int) else 0)
  | .jnull, .jnull => true
  | .jarr xs, .jarr ys =>
    xs.length == ys.length &&
    (xs.zip ys).attach.all (fun p => pyEq p.1.1 p.1.2)
  | .jobj c, .jobj t =>
    c.attach.all (fun p =>
      match jlookup t p.1.1 with
      | some tv => pyEq p.1.2 tv
      | none => false) &&
    t.all (fun q => (jlookup c q.1).isSome)
  | _, _ => false
termination_by a _ => sizeOf a
decreasing_by
  all_goals simp_wf
  · have hx : (↑p : JVal × JVal).1 ∈ xs := (List.of_mem_zip p.2).1
    have := List.sizeOf_lt_of_mem hx
    omega
  · have hp := List.sizeOf_lt_of_mem p.2
    have hq : sizeOf (↑p : String × JVal).2 < sizeOf (↑p : String × JVal) := by
      obtain ⟨⟨k, v⟩, hm⟩ := p
      simp
    omega

/-- An entry of the report dict built by `diff_json`: the strings `"Added"`,
`"Removed"` and `"child diff but no changes found"`, the formatted
`"Changed from %s to %s"` string (carrying the two values), or a nested
report dict. -/
inductive DiffEntry where
  | added
  | removed
  | changed (fromVal toVal : JVal)
  | nested (report : List (String × DiffEntry))
  | sentinel
deriving Repr

/-- The `for key in current_keys.union(target_keys)` loop of `diff_json`,
processing the keys in `keys`: a key absent from `current` yields `Added`,
one absent from `target` yields `Removed`, equal values yield nothing;
for unequal values the source tests only `type(current[key]) == dict` — when
the current value is a dict it recurses (which raises, modelled `.error ()`,
when the target value is not itself a dict), nesting a non-empty child report
under the key and emitting the sentinel string for an empty one; when the
current value is not a dict it emits the formatted `Changed` entry. -/
def diffGo : List (String × JVal) → List (String × JVal) → List String →
    Except Unit (List (String × DiffEntry))
  | _, _, [] => .ok []
  | current, target, k :: ks =>
    match h : jlookup current k with
    | none => (diffGo current target ks).map (fun rest => (k, .added) :: rest)
    | some cv =>
      match jlookup target k with
      | none => (diffGo current target ks).map (fun rest => (k, .removed) :: rest)
      | some tv =>
        if pyEq cv tv then diffGo current target ks
        else
          match cv, tv with
          | .jobj ckvs, .jobj tkvs =>
            match diffGo ckvs tkvs (unionKeys ckvs tkvs) with
            | .error e => .error e
            | .ok child =>
              (diffGo current target ks).map (fun rest =>
                (if child.length > 0 then (k, .nested child) else (k, .sentinel)) :: rest)
          | .jobj _, _ => .error ()
          | _, _ => (diffGo current target ks).map (fun rest => (k, .changed cv tv) :: rest)
termination_by current _ keys => (sizeOf current, keys.length)
decreasing_by
  all_goals simp_wf
  all_goals first
    | (apply Prod.Lex.right
       omega)
    | (apply Prod.Lex.left
       have hs := jlookup_sizeOf h
       simp only [JVal.jobj.sizeOf_spec] at hs
       omega)

/-- Source: `diff_json(current, target)` on two dict nodes. -/
def diff_json (current target : List (String × JVal)) :
    Except Unit (List (String × DiffEntry)) :=
  diffGo current target (unionKeys current target)

/-- The `state` module parameter (`choices=['present', 'absent', 'described']`). -/
inductive TargetState where
  | present
  | absent
  | described
deriving DecidableEq, Repr

/-- The fields of a `CloudFormationStack` that `check` / `planned_changes`
read: the desired state and the observed state loaded by
`_load_current_stack` (absent stacks keep `None` template and parameters). -/
structure StackState where
  target_state : TargetState
  target_template : Option String
  target_parameters : List (String × PyVal)
  present : Bool
  current_template : Option String
  current_parameters : Option (List (String × String))
deriving Repr

/-- One element of the `reasons` list built by `planned_changes`: the
`{'Template': template_delta}` dict or the parameter-delta dict. -/
inductive Reason where
  | template (delta : List (String × DiffEntry))
  | params (delta : List (String × String × PyVal))
deriving Repr

/-- `json.loads` applied to a template slot; applying it to `None` raises.
The parser itself is external library code and is a parameter of the model. -/
def loadsOpt (parse : String → Except Unit (List (String × JVal))) :
    Option String → Except Unit (List (String × JVal))
  | none => .error ()
  | some s => parse s

/-- Source: `_diff_templates`: parse both template bodies and diff them. -/
def diff_templates (parse : String → Except Unit (List (String × JVal)))
    (st : StackState) : Except Unit (List (String × DiffEntry)) := do
  let current ← loadsOpt parse st.current_template
  let target ← loadsOpt parse st.target_template
  diff_json current target

/-- Source: `planned_changes`: an absent stack yields no reasons (it will be
created); otherwise a textually differing template contributes a
`Template` reason (computed by `_diff_templates`, whatever its content), and a
non-empty parameter delta contributes the delta dict.  Iterating `None`
current parameters would raise, modelled `.error ()`. -/
def planned_changes (parse : String → Except Unit (List (String × JVal)))
    (st : StackState) : Except Unit (List Reason) :=
  if st.present = false then .ok []
  else do
    let tReasons ←
      if st.target_template ≠ st.current_template then do
        let d ← diff_templates parse st
        pure [Reason.template d]
      else pure []
    match st.current_parameters with
    | none => .error ()
    | some curPs =>
      let pd := params_delta curPs st.target_parameters
      pure (tReasons ++ if pd.length > 0 then [Reason.params pd] else [])

/-- The `output` string `check` passes to `exit_json`, with the formatted
pending-changes list carried on the update arm. -/
inductive CheckOutput where
  | wouldCreate
  | wouldUpdate (pending : List Reason)
  | upToDate
  | willDelete
  | missing
  | describedOnly
deriving Repr

/-- Source: `check`: compute `planned_changes`, then walk the
`if`/`elif` chain over `(target_state, present, len(pending_updates))` and
exit with the `(changed, output)` pair.  The trailing `.error ()` models the
`NameError` Python would raise if no branch matched (unreachable for the
three admissible states). -/
def check (parse : String → Except Unit (List (String × JVal)))
    (st : StackState) : Except Unit (Bool × CheckOutput) := do
  let pending ← planned_changes parse st
  if st.target_state = .present ∧ st.present = false then
    pure (true, .wouldCreate)
  else if st.target_state = .present ∧ pending.length > 0 then
    pure (true, .wouldUpdate pending)
  else if st.target_state = .present ∧ pending.length = 0 then
    pure (false, .upToDate)
  else if st.target_state = .absent ∧ st.present = true then
    pure (true, .willDelete)
  else if st.target_state = .absent ∧ st.present = false then
    pure (false, .missing)
  else if st.target_state = .described then
    pure (false, .describedOnly)
  else .error ()

theorem addSleep_sleepList {α : Type} (s : Nat) (o : InvokeOutcome α) :
    (addSleep s o).sleepList = s :: o.sleepList := by
  cases o <;> rfl

theorem addSleep_attemptCount {α : Type} (s : Nat) (o : InvokeOutcome α) :
    (addSleep s o).attemptCount = o.attemptCount := by
  cases o <;> rfl

theorem invokeGo_retval {α : Type} (f : Nat → CallResult α) (r : Nat) (v : α)
    (h : f r = .retval v) : invokeGo f r = .returned v (r + 1) [] := by
  rw [invokeGo, h]

theorem invokeGo_throttle_step {α : Type} (f : Nat → CallResult α) (r : Nat)
    (h : f r = .botoError IGNORE_CODE) (hr : r < MAX_RETRIES) :
    invokeGo f r = addSleep (5 * 2 ^ r) (invokeGo f (r + 1)) := by
  rw [invokeGo, h]
  simp only [ne_eq, not_true_eq_false, false_or, if_neg (by omega : ¬ MAX_RETRIES ≤ r)]

theorem invokeGo_raise {α : Type} (f : Nat → CallResult α) (r : Nat) (code : String)
    (h : f r = .botoError code) (hc : code ≠ IGNORE_CODE ∨ MAX_RETRIES ≤ r) :
    invokeGo f r = .raisedBoto code (r + 1) [] := by
  rw [invokeGo, h]
  exact if_pos hc

/-- C1 counterexample: with every call failing with the throttling code, the
retry loop invokes the operation 4 times (1 initial call plus
`MAX_RETRIES = 3` retries) before re-raising — not 3 times as claimed. -/
theorem C1_counterexample :
    (invoke_with_throttling_retries (fun _ => CallResult.botoError "Throttling")
      : InvokeOutcome Nat).attemptCount = 4 ∧ (4 : Nat) ≠ 3 := by
  constructor
  · rw [invoke_with_throttling_retries,
      invokeGo_throttle_step _ 0 rfl (by simp [MAX_RETRIES]),
      invokeGo_throttle_step _ 1 rfl (by simp [MAX_RETRIES]),
      invokeGo_throttle_step _ 2 rfl (by simp [MAX_RETRIES]),
      invokeGo_raise _ (2 + 1) "Throttling" rfl (Or.inr (by simp [MAX_RETRIES]))]
    rfl
  · omega

/-- C1 (amended): on an operation that fails with the throttling code on
every call, `invoke_with_throttling_retries` re-raises the throttling error
after exactly 4 attempts (one initial invocation plus `MAX_RETRIES = 3`
delayed retries, sleeping 5, 10 and 20 seconds); an operation that fails with
the throttling code exactly twice and then succeeds returns the success value
after exactly 2 delayed retries (3 invocations, sleeping 5 and 10 seconds). -/
theorem C1_retry_loop :
    (∀ (α : Type) (f : Nat → CallResult α), (∀ n, f n = .botoError "Throttling") →
        invoke_with_throttling_retries f = .raisedBoto "Throttling" 4 [5, 10, 20]) ∧
    (∀ (α : Type) (f : Nat → CallResult α) (v : α),
        f 0 = .botoError "Throttling" → f 1 = .botoError "Throttling" →
        f 2 = .retval v →
        invoke_with_throttling_retries f = .returned v 3 [5, 10]) := by
  constructor
  · intro α f h
    rw [invoke_with_throttling_retries,
      invokeGo_throttle_step _ 0 (h 0) (by simp [MAX_RETRIES]),
      invokeGo_throttle_step _ 1 (h 1) (by simp [MAX_RETRIES]),
      invokeGo_throttle_step _ 2 (h 2) (by simp [MAX_RETRIES]),
      invokeGo_raise _ (2 + 1) "Throttling" (h 3) (Or.inr (by simp [MAX_RETRIES]))]
    rfl
  · intro α f v h0 h1 h2
    rw [invoke_with_throttling_retries,
      invokeGo_throttle_step _ 0 h0 (by simp [MAX_RETRIES]),
      invokeGo_throttle_step _ 1 h1 (by simp [MAX_RETRIES]),
      invokeGo_retval _ 2 v h2]
    rfl

theorem C1_retry_loop_witness :
    (invoke_with_throttling_retries (fun _ => CallResult.botoError "Throttling")
      : InvokeOutcome Nat) = .raisedBoto "Throttling" 4 [5, 10, 20] ∧
    invoke_with_throttling_retries
      (fun n => if n < 2 then CallResult.botoError "Throttling" else .retval 42)
      = .returned 42 3 [5, 10] :=
  ⟨C1_retry_loop.1 Nat _ (fun _ => rfl),
   C1_retry_loop.2 Nat _ 42 rfl rfl rfl⟩

theorem invokeGo_sleep_index {α : Type} (f : Nat → CallResult α) :
    ∀ (i r s : Nat), (invokeGo f r).sleepList.get? i = some s → s = 5 * 2 ^ (r + i) := by
  intro i
  induction i with
  | zero =>
    intro r s h
    rw [invokeGo] at h
    cases hf : f r with
    | retval v => rw [hf] at h; simp [InvokeOutcome.sleepList] at h
    | otherError => rw [hf] at h; simp [InvokeOutcome.sleepList] at h
    | botoError code =>
      rw [hf] at h
      dsimp only at h
      split at h
      · simp [InvokeOutcome.sleepList] at h
      · rw [addSleep_sleepList] at h
        simp at h
        rw [Nat.add_zero]
        omega
  | succ i ih =>
    intro r s h
    rw [invokeGo] at h
    cases hf : f r with
    | retval v => rw [hf] at h; simp [InvokeOutcome.sleepList] at h
    | otherError => rw [hf] at h; simp [InvokeOutcome.sleepList] at h
    | botoError code =>
      rw [hf] at h
      dsimp only at h
      split at h
      · simp [InvokeOutcome.sleepList] at h
      · rw [addSleep_sleepList] at h
        simp only [List.get?_cons_succ] at h
        have := ih (r + 1) s h
        rw [this]
        ring_nf

/-- C8: the `n`-th backoff delay performed by `invoke_with_throttling_retries`
(1-indexed, so the delay slept before retry attempt `n`) is exactly
`5 * 2 ^ (n - 1)` seconds — the sleep sequence between throttled attempts is
5, 10, 20, … seconds, a deterministic function of the retry index with no
jitter. -/
theorem C8_backoff_delays :
    ∀ (α : Type) (f : Nat → CallResult α) (n s : Nat), 1 ≤ n →
      (invoke_with_throttling_retries f).sleepList.get? (n - 1) = some s →
      s = 5 * 2 ^ (n - 1) := by
  intro α f n s _ h
  have := invokeGo_sleep_index f (n - 1) 0 s h
  simpa using this

theorem C8_backoff_delays_witness :
    (1 ≤ 2 ∧
      (invoke_with_throttling_retries (fun _ => CallResult.botoError "Throttling")
        : InvokeOutcome Nat).sleepList.get? (2 - 1) = some 10) ∧
    (10 : Nat) = 5 * 2 ^ (2 - 1) := by
  have heval : (invoke_with_throttling_retries (fun _ => CallResult.botoError "Throttling")
      : InvokeOutcome Nat).sleepList = [5, 10, 20] := by
    rw [invoke_with_throttling_retries,
      invokeGo_throttle_step _ 0 rfl (by simp [MAX_RETRIES]),
      invokeGo_throttle_step _ 1 rfl (by simp [MAX_RETRIES]),
      invokeGo_throttle_step _ 2 rfl (by simp [MAX_RETRIES]),
      invokeGo_raise _ (2 + 1) "Throttling" rfl (Or.inr (by simp [MAX_RETRIES]))]
    rfl
  refine ⟨⟨by omega, by rw [heval]; rfl⟩, ?_⟩
  exact C8_backoff_delays Nat _ 2 10 (by omega) (by rw [heval]; rfl)

/-- C2 counterexample: a describe failure that is a `BotoServerError` but is
not "Stack not found" — here an authorization failure — does not propagate as
a fatal error: `_load_current_stack` swallows it and reports the stack as
absent with the default observed state. -/
theorem C2_counterexample :
    load_current_stack
        (.botoServerError "User is not authorized to perform: cloudformation:DescribeStacks") =
      .ok ⟨false, none, none, []⟩ ∧
    load_current_stack
        (.botoServerError "User is not authorized to perform: cloudformation:DescribeStacks") ≠
      .error () := by
  refine ⟨rfl, ?_⟩
  intro h
  simp [load_current_stack] at h

/-- C2 (amended): when describe fails with any `BotoServerError` — "Stack not
found" or otherwise — the observer yields existence `false` with the default
empty template/parameters/outputs without failing the call; a successful
describe yields the stack's data with existence `true`; only a failure that is
not a `BotoServerError` propagates fatally. -/
theorem C2_observer :
    (∀ msg, load_current_stack (.botoServerError msg) = .ok ⟨false, none, none, []⟩) ∧
    (∀ outs tmpl params, load_current_stack (.found outs tmpl params) =
        .ok ⟨true, some tmpl, some params, outs⟩) ∧
    load_current_stack .otherError = .error () :=
  ⟨fun _ => rfl, fun _ _ _ => rfl, rfl⟩

/-- Membership in the parameter delta is equivalent to: the key/value pair is
among the current parameters, the target value for the key exists, is truthy,
and its string form differs from the current value. -/
theorem params_delta_mem (current : List (String × String)) (target : List (String × PyVal))
    (k fr : String) (tv : PyVal) :
    (k, fr, tv) ∈ params_delta current target ↔
      (k, fr) ∈ current ∧ plookup target k = some tv ∧ tv.truthy = true ∧
        tv.pyStr ≠ fr := by
  induction current with
  | nil => simp [params_delta]
  | cons p rest ih =>
    obtain ⟨k', v'⟩ := p
    rw [params_delta, List.mem_append, ih, List.mem_cons]
    constructor
    · rintro (h1 | ⟨hmem, hlk, htr, hne⟩)
      · cases hp : plookup target k' with
        | none => rw [hp] at h1; simp at h1
        | some nv =>
          rw [hp] at h1
          dsimp only at h1
          by_cases hc : (nv.truthy && (nv.pyStr != v')) = true
          · rw [if_pos hc] at h1
            simp only [List.mem_singleton, Prod.mk.injEq] at h1
            obtain ⟨rfl, rfl, rfl⟩ := h1
            simp only [Bool.and_eq_true, bne_iff_ne, ne_eq] at hc
            exact ⟨Or.inl rfl, hp, hc.1, hc.2⟩
          · rw [if_neg hc] at h1; simp at h1
      · exact ⟨Or.inr hmem, hlk, htr, hne⟩
    · rintro ⟨heq | hmem, hlk, htr, hne⟩
      · obtain ⟨rfl, rfl⟩ := Prod.mk.injEq .. |>.mp heq
        left
        rw [hlk]
        dsimp only
        rw [if_pos]
        · simp
        · simp only [Bool.and_eq_true, bne_iff_ne, ne_eq]
          exact ⟨htr, hne⟩
      · exact Or.inr ⟨hmem, hlk, htr, hne⟩

/-- C10: a current-parameter key whose target value is falsy (empty string,
zero, false — or absent, so that `dict.get` yields `None`) never produces a
parameter-delta entry, even when that target value differs from the current
value. -/
theorem C10_falsy_target_parameter_not_reported :
    ∀ (current : List (String × String)) (target : List (String × PyVal)) (k : String),
      (∀ tv, plookup target k = some tv → tv.truthy = false) →
      ∀ (fr : String) (tv : PyVal), (k, fr, tv) ∉ params_delta current target := by
  intro current target k hk fr tv h
  rw [params_delta_mem] at h
  obtain ⟨_, hlk, htr, _⟩ := h
  rw [hk tv hlk] at htr
  cases htr

theorem C10_falsy_target_parameter_not_reported_witness :
    ("A", "1", PyVal.pstr "") ∉ params_delta [("A", "1")] [("A", PyVal.pstr "")] :=
  C10_falsy_target_parameter_not_reported [("A", "1")] [("A", PyVal.pstr "")] "A"
    (fun tv h => by
      have h2 : PyVal.pstr "" = tv := by simpa [plookup] using h
      rw [← h2]
      rfl)
    "1" (PyVal.pstr "")

/-- C6 counterexample: with current parameters `{A:"1"}` and target
parameters `{A:""}`, the current value `"1"` differs from the string form
`""` of the target value, yet no delta entry is produced — the delta is not
"exactly the keys whose current value differs from the string form of the
target value", because the code additionally requires the target value to be
truthy. -/
theorem C6_counterexample :
    params_delta [("A", "1")] [("A", PyVal.pstr "")] = [] ∧
      (PyVal.pstr "").pyStr ≠ "1" := by
  exact ⟨rfl, by decide⟩

/-- C6 (amended): the parameter delta contains an entry `(k, from, to)`
exactly for the keys `k` present (with value `from`) in the current
parameters whose target value `to` exists, is truthy, and has a string form
differing from `from`; keys present only in the target parameters are never
reported; in particular the delta of current `{A:"1",B:"2"}` against target
`{A:"1",B:"3"}` is exactly `{B:{from:"2",to:"3"}}`. -/
theorem C6_parameter_delta :
    (∀ (current : List (String × String)) (target : List (String × PyVal))
        (k fr : String) (tv : PyVal),
        (k, fr, tv) ∈ params_delta current target ↔
          (k, fr) ∈ current ∧ plookup target k = some tv ∧ tv.truthy = true ∧
            tv.pyStr ≠ fr) ∧
    params_delta [("A", "1"), ("B", "2")] [("A", .pstr "1"), ("B", .pstr "3")] =
      [("B", "2", .pstr "3")] :=
  ⟨params_delta_mem, rfl⟩

/-- A status string on which the polling loop of `stack_operation` keeps
looping: none of the four terminal comparisons matches. -/
def nonTerminalStatus (operation s : String) : Bool :=
  !(operation ++ "_COMPLETE" == s) && !("ROLLBACK_COMPLETE" == s) &&
    !(operation ++ "_ROLLBACK_COMPLETE" == s) && !(operation ++ "_FAILED" == s)

theorem stackOpGo_cont (op : String) (last : Option StackSnapshot) (st : StackSnapshot)
    (h : nonTerminalStatus op st.stack_status = true) (rest : List PollStep) :
    stackOpGo op last (.ok st :: rest) =
      ((stackOpGo op (some st) rest).1, 5 :: (stackOpGo op (some st) rest).2) := by
  simp only [nonTerminalStatus, Bool.and_eq_true, Bool.not_eq_true',
    beq_eq_false_iff_ne, ne_eq] at h
  obtain ⟨⟨⟨h1, h2⟩, h3⟩, h4⟩ := h
  simp only [stackOpGo]
  rw [if_neg h1, if_neg (not_or.mpr ⟨h2, h3⟩), if_neg h4]

theorem stackOpGo_complete (op : String) (last : Option StackSnapshot) (st : StackSnapshot)
    (h : op ++ "_COMPLETE" = st.stack_status) (rest : List PollStep) :
    stackOpGo op last (.ok st :: rest) =
      (some ⟨true, false, "Stack " ++ op ++ " complete", some st.events⟩, []) := by
  simp only [stackOpGo]
  rw [if_pos h]

theorem stackOpGo_rollback (op : String) (last : Option StackSnapshot) (st : StackSnapshot)
    (h1 : ¬(op ++ "_COMPLETE" = st.stack_status))
    (h : "ROLLBACK_COMPLETE" = st.stack_status ∨
      op ++ "_ROLLBACK_COMPLETE" = st.stack_status) (rest : List PollStep) :
    stackOpGo op last (.ok st :: rest) =
      (some ⟨true, true, "Problem with " ++ op ++ ". Rollback complete", some st.events⟩,
        []) := by
  simp only [stackOpGo]
  rw [if_neg h1, if_pos h]

theorem stackOpGo_opfailed (op : String) (last : Option StackSnapshot) (st : StackSnapshot)
    (h1 : ¬(op ++ "_COMPLETE" = st.stack_status))
    (h2 : ¬("ROLLBACK_COMPLETE" = st.stack_status ∨
      op ++ "_ROLLBACK_COMPLETE" = st.stack_status))
    (h : op ++ "_FAILED" = st.stack_status) (rest : List PollStep) :
    stackOpGo op last (.ok st :: rest) =
      (some ⟨true, true, "Stack " ++ op ++ " failed", some st.events⟩, []) := by
  simp only [stackOpGo]
  rw [if_neg h1, if_neg h2, if_pos h]

/-- Running the loop over a run of successful describes whose statuses are all
non-terminal just threads the latest snapshot through and piles up one
`time.sleep(5)` per describe. -/
theorem stackOpGo_nonterminal_run (op : String) :
    ∀ (pre : List StackSnapshot), (∀ s ∈ pre, nonTerminalStatus op s.stack_status = true) →
    ∀ (last : Option StackSnapshot) (rest : List PollStep),
      stackOpGo op last (pre.map PollStep.ok ++ rest) =
        ((stackOpGo op (pre.foldl (fun _ s => some s) last) rest).1,
          List.replicate pre.length 5 ++
            (stackOpGo op (pre.foldl (fun _ s => some s) last) rest).2) := by
  intro pre
  induction pre with
  | nil => intro _ last rest; simp
  | cons s ps ih =>
    intro h last rest
    have hs := h s (List.mem_cons_self ..)
    rw [List.map_cons, List.cons_append, stackOpGo_cont op last s hs]
    rw [ih (fun x hx => h x (List.mem_cons_of_mem _ hx)) (some s) rest]
    simp [List.replicate_succ, List.foldl_cons]

theorem foldl_latest_append (init : Option StackSnapshot) (l : List StackSnapshot)
    (x : StackSnapshot) :
    List.foldl (fun _ s => some s) init (l ++ [x]) = some x := by
  rw [List.foldl_append]
  rfl

/-- C9: inside the polling loop, every exception raised by the describe call —
of any kind, thanks to the bare `except:` — ends the loop with a non-fatal
result: `Stack Not Found` (changed, no events) when no describe in this loop
had succeeded yet, and `Stack Deleted` (changed, with the last snapshot's
events) when one had; no describe exception propagates out of the loop. -/
theorem C9_poll_exception_nonfatal :
    ∀ (op : String) (pre : List StackSnapshot) (rest : List PollStep),
      (∀ s ∈ pre, nonTerminalStatus op s.stack_status = true) →
      (stack_operation op (.exnStep :: rest) =
        (some ⟨true, false, "Stack Not Found", none⟩, [])) ∧
      (∀ s, nonTerminalStatus op s.stack_status = true →
        stack_operation op ((pre ++ [s]).map PollStep.ok ++ .exnStep :: rest) =
          (some ⟨true, false, "Stack Deleted", some s.events⟩,
            List.replicate (pre.length + 1) 5)) := by
  intro op pre rest hpre
  constructor
  · rfl
  · intro s hs
    rw [stack_operation, stackOpGo_nonterminal_run op (pre ++ [s])
      (by
        intro x hx
        rcases List.mem_append.1 hx with hx | hx
        · exact hpre x hx
        · rw [List.mem_singleton.1 hx]; exact hs)
      none (.exnStep :: rest)]
    rw [foldl_latest_append]
    simp [stackOpGo]

theorem C9_poll_exception_nonfatal_witness :
    stack_operation "DELETE" [.exnStep] =
      (some ⟨true, false, "Stack Not Found", none⟩, []) ∧
    stack_operation "DELETE"
        ((([⟨"DELETE_IN_PROGRESS", ["e1"]⟩] ++ [⟨"DELETE_IN_PROGRESS", ["e1", "e2"]⟩] :
          List StackSnapshot)).map PollStep.ok ++ [.exnStep]) =
      (some ⟨true, false, "Stack Deleted", some ["e1", "e2"]⟩, List.replicate 2 5) := by
  have h := C9_poll_exception_nonfatal "DELETE" [⟨"DELETE_IN_PROGRESS", ["e1"]⟩] []
    (fun s hs => by rw [List.mem_singleton.1 hs]; rfl)
  exact ⟨h.1, h.2 ⟨"DELETE_IN_PROGRESS", ["e1", "e2"]⟩ rfl⟩

/-- C5: the polling state machine of `stack_operation` for an operation `OP`
in {CREATE, UPDATE, DELETE}: after any run of non-terminal polls (each
followed by a 5-second sleep), a status equal to `"{OP}_COMPLETE"` terminates
with success (`changed` and the event trail, no `failed` flag); a status equal
to `"ROLLBACK_COMPLETE"` or `"{OP}_ROLLBACK_COMPLETE"` or `"{OP}_FAILED"`
terminates with `changed` and `failed` and the event trail; and a trace of
only non-terminal statuses leaves the loop still running (no result), having
slept 5 seconds per describe. -/
theorem C5_polling_state_machine :
    ∀ (op : String), op ∈ ["CREATE", "UPDATE", "DELETE"] →
    ∀ (pre : List StackSnapshot), (∀ s ∈ pre, nonTerminalStatus op s.stack_status = true) →
    ∀ (st : StackSnapshot) (rest : List PollStep),
      (st.stack_status = op ++ "_COMPLETE" →
        stack_operation op (pre.map PollStep.ok ++ .ok st :: rest) =
          (some ⟨true, false, "Stack " ++ op ++ " complete", some st.events⟩,
            List.replicate pre.length 5)) ∧
      (st.stack_status = "ROLLBACK_COMPLETE" ∨
          st.stack_status = op ++ "_ROLLBACK_COMPLETE" →
        stack_operation op (pre.map PollStep.ok ++ .ok st :: rest) =
          (some ⟨true, true, "Problem with " ++ op ++ ". Rollback complete",
            some st.events⟩, List.replicate pre.length 5)) ∧
      (st.stack_status = op ++ "_FAILED" →
        stack_operation op (pre.map PollStep.ok ++ .ok st :: rest) =
          (some ⟨true, true, "Stack " ++ op ++ " failed", some st.events⟩,
            List.replicate pre.length 5)) ∧
      (stack_operation op (pre.map PollStep.ok) = (none, List.replicate pre.length 5)) := by
  intro op hop pre hpre st rest
  have hrun := stackOpGo_nonterminal_run op pre hpre none
  refine ⟨?_, ?_, ?_, ?_⟩
  · intro h
    rw [stack_operation, hrun (.ok st :: rest),
      stackOpGo_complete op _ st h.symm rest]
    simp
  · intro h
    have h1 : ¬(op ++ "_COMPLETE" = st.stack_status) := by
      simp only [List.mem_cons, List.mem_singleton, List.not_mem_nil, or_false] at hop
      rcases hop with rfl | rfl | rfl <;>
        rcases h with h | h <;> rw [h] <;> decide
    rw [stack_operation, hrun (.ok st :: rest),
      stackOpGo_rollback op _ st h1 (by rcases h with h | h; exacts [Or.inl h.symm, Or.inr h.symm]) rest]
    simp
  · intro h
    have h1 : ¬(op ++ "_COMPLETE" = st.stack_status) := by
      simp only [List.mem_cons, List.mem_singleton, List.not_mem_nil, or_false] at hop
      rcases hop with rfl | rfl | rfl <;> rw [h] <;> decide
    have h2 : ¬("ROLLBACK_COMPLETE" = st.stack_status ∨
        op ++ "_ROLLBACK_COMPLETE" = st.stack_status) := by
      simp only [List.mem_cons, List.mem_singleton, List.not_mem_nil, or_false] at hop
      rcases hop with rfl | rfl | rfl <;> rw [h] <;> decide
    rw [stack_operation, hrun (.ok st :: rest),
      stackOpGo_opfailed op _ st h1 h2 h.symm rest]
    simp
  · rw [stack_operation, ← List.append_nil (pre.map PollStep.ok), hrun []]
    simp [stackOpGo]

theorem C5_polling_state_machine_witness :
    ("CREATE_COMPLETE" = "CREATE" ++ "_COMPLETE") ∧
    stack_operation "CREATE"
        (([⟨"CREATE_IN_PROGRESS", ["e1"]⟩] : List StackSnapshot).map PollStep.ok ++
          [.ok ⟨"CREATE_COMPLETE", ["e1", "e2"]⟩]) =
      (some ⟨true, false, "Stack " ++ "CREATE" ++ " complete", some ["e1", "e2"]⟩,
        List.replicate 1 5) := by
  have h := C5_polling_state_machine "CREATE" (by simp)
    [⟨"CREATE_IN_PROGRESS", ["e1"]⟩] (fun s hs => by rw [List.mem_singleton.1 hs]; rfl)
    ⟨"CREATE_COMPLETE", ["e1", "e2"]⟩ []
  exact ⟨rfl, h.1 rfl⟩

theorem except_map_eq_ok {α β : Type} (g : α → β) (x : Except Unit α) (b : β)
    (h : x.map g = .ok b) : ∃ a, x = .ok a ∧ b = g a := by
  cases x with
  | error e => simp [Except.map] at h
  | ok a =>
    refine ⟨a, rfl, ?_⟩
    simpa [Except.map] using h.symm

theorem except_map_error {α β : Type} (g : α → β) :
    (Except.error () : Except Unit α).map g = .error () := rfl

theorem jlookup_isSome_iff (l : List (String × JVal)) (k : String) :
    (jlookup l k).isSome ↔ k ∈ l.map Prod.fst := by
  induction l with
  | nil => simp [jlookup]
  | cons p rest ih =>
    obtain ⟨k', v⟩ := p
    rw [jlookup]
    by_cases h : k' = k
    · subst h
      simp
    · rw [if_neg h]
      simp only [List.map_cons, List.mem_cons]
      rw [ih]
      constructor
      · exact Or.inr
      · rintro (rfl | hm)
        · exact absurd rfl h
        · exact hm

theorem jlookup_mem {l : List (String × JVal)} {k : String} {v : JVal}
    (h : jlookup l k = some v) : (k, v) ∈ l := by
  induction l with
  | nil => simp [jlookup] at h
  | cons p rest ih =>
    obtain ⟨k', v'⟩ := p
    rw [jlookup] at h
    split at h
    · rename_i heq
      injection h with h2
      subst heq
      subst h2
      exact List.mem_cons_self ..
    · exact List.mem_cons_of_mem _ (ih h)

theorem mem_unionKeys {c t : List (String × JVal)} {k : String} :
    k ∈ unionKeys c t ↔ k ∈ c.map Prod.fst ∨ k ∈ t.map Prod.fst := by
  rw [unionKeys, List.mem_dedup, List.mem_append]

/-- From dict equality: every key bound in the left dict is bound in the
right dict to a `pyEq`-equal value. -/
theorem pyEq_obj_lookup {c t : List (String × JVal)} {k : String} {cv : JVal}
    (h : pyEq (.jobj c) (.jobj t) = true) (hc : jlookup c k = some cv) :
    ∃ tv, jlookup t k = some tv ∧ pyEq cv tv = true := by
  simp only [pyEq, Bool.and_eq_true, List.all_eq_true, List.mem_attach, true_implies,
    Subtype.forall] at h
  have h1 := h.1 (k, cv) (jlookup_mem hc)
  cases ht : jlookup t k with
  | none => rw [ht] at h1; simp at h1
  | some tv =>
    rw [ht] at h1
    exact ⟨tv, rfl, h1⟩

/-- From dict equality: every key of the right dict is bound in the left. -/
theorem pyEq_obj_key_sub {c t : List (String × JVal)} {k : String}
    (h : pyEq (.jobj c) (.jobj t) = true) (hk : k ∈ t.map Prod.fst) :
    (jlookup c k).isSome := by
  simp only [pyEq, Bool.and_eq_true, List.all_eq_true, List.mem_attach, true_implies,
    Subtype.forall] at h
  obtain ⟨⟨k', v⟩, hmem, rfl⟩ := List.mem_map.1 hk
  exact h.2 (k', v) hmem

/-- Unfolding `diffGo` at a key absent from the current document. -/
theorem diffGo_cons_none {c t : List (String × JVal)} {k : String} (ks : List String)
    (hc : jlookup c k = none) :
    diffGo c t (k :: ks) =
      (diffGo c t ks).map (fun rest => (k, DiffEntry.added) :: rest) := by
  simp only [diffGo]
  split
  · rfl
  · rename_i cv heq
    rw [hc] at heq
    cases heq

/-- Unfolding `diffGo` at a key absent from the target document. -/
theorem diffGo_cons_removed {c t : List (String × JVal)} {k : String} (ks : List String)
    {cv : JVal} (hc : jlookup c k = some cv) (ht : jlookup t k = none) :
    diffGo c t (k :: ks) =
      (diffGo c t ks).map (fun rest => (k, DiffEntry.removed) :: rest) := by
  simp only [diffGo]
  split
  · rename_i heq
    rw [hc] at heq
    cases heq
  · rename_i cv' heq
    rw [hc] at heq
    injection heq with heq
    subst heq
    split
    · rfl
    · rename_i tv heq2
      rw [ht] at heq2
      cases heq2

/-- Unfolding `diffGo` at a key bound on both sides to `pyEq`-equal values. -/
theorem diffGo_cons_eq {c t : List (String × JVal)} {k : String} (ks : List String)
    {cv tv : JVal} (hc : jlookup c k = some cv) (ht : jlookup t k = some tv)
    (hpe : pyEq cv tv = true) :
    diffGo c t (k :: ks) = diffGo c t ks := by
  simp only [diffGo]
  split
  · rename_i heq
    rw [hc] at heq
    cases heq
  · rename_i cv' heq
    rw [hc] at heq
    injection heq with heq
    subst heq
    split
    · rename_i heq2
      rw [ht] at heq2
      cases heq2
    · rename_i tv' heq2
      rw [ht] at heq2
      injection heq2 with heq2
      subst heq2
      rw [if_pos hpe]

/-- Unfolding `diffGo` at a key with unequal values whose current value is not
a dict: the formatted `Changed` entry. -/
theorem diffGo_cons_changed {c t : List (String × JVal)} {k : String} (ks : List String)
    {cv tv : JVal} (hc : jlookup c k = some cv) (ht : jlookup t k = some tv)
    (hpe : pyEq cv tv = false) (hnobj : ∀ kvs, cv ≠ JVal.jobj kvs) :
    diffGo c t (k :: ks) =
      (diffGo c t ks).map (fun rest => (k, DiffEntry.changed cv tv) :: rest) := by
  simp only [diffGo]
  split
  · rename_i heq
    rw [hc] at heq
    cases heq
  · rename_i cv' heq
    rw [hc] at heq
    injection heq with heq
    subst heq
    split
    · rename_i heq2
      rw [ht] at heq2
      cases heq2
    · rename_i tv' heq2
      rw [ht] at heq2
      injection heq2 with heq2
      subst heq2
      rw [if_neg (by rw [hpe]; exact Bool.false_ne_true)]
      split
      all_goals first
        | rfl
        | exact absurd rfl (hnobj _)

/-- Unfolding `diffGo` at a key with unequal values whose current value is a
dict but whose target value is not: the recursion raises. -/
theorem diffGo_cons_typeerror {c t : List (String × JVal)} {k : String} (ks : List String)
    {ckvs : List (String × JVal)} {tv : JVal}
    (hc : jlookup c k = some (JVal.jobj ckvs)) (ht : jlookup t k = some tv)
    (hpe : pyEq (JVal.jobj ckvs) tv = false) (hnobj : ∀ tkvs, tv ≠ JVal.jobj tkvs) :
    diffGo c t (k :: ks) = .error () := by
  simp only [diffGo]
  split
  · rename_i heq
    rw [hc] at heq
    cases heq
  · rename_i cv' heq
    rw [hc] at heq
    injection heq with heq
    subst heq
    split
    · rename_i heq2
      rw [ht] at heq2
      cases heq2
    · rename_i tv' heq2
      rw [ht] at heq2
      injection heq2 with heq2
      subst heq2
      rw [if_neg (by rw [hpe]; exact Bool.false_ne_true)]
      split
      · exact absurd rfl (hnobj _)
      · rfl
      · rename_i hno2 hno1
        exact (hno2 _ hc rfl (proof_irrel_heq _ _)).elim

/-- Unfolding `diffGo` at a key with unequal values both of which are dicts:
the recursive diff, nested when non-empty and the sentinel when empty. -/
theorem diffGo_cons_nested {c t : List (String × JVal)} {k : String} (ks : List String)
    {ckvs tkvs : List (String × JVal)}
    (hc : jlookup c k = some (JVal.jobj ckvs)) (ht : jlookup t k = some (JVal.jobj tkvs))
    (hpe : pyEq (JVal.jobj ckvs) (JVal.jobj tkvs) = false) :
    diffGo c t (k :: ks) =
      (match diffGo ckvs tkvs (unionKeys ckvs tkvs) with
       | .error e => .error e
       | .ok child => (diffGo c t ks).map (fun rest =>
           (if child.length > 0 then (k, DiffEntry.nested child)
            else (k, DiffEntry.sentinel)) :: rest)) := by
  simp only [diffGo]
  split
  · rename_i heq
    rw [hc] at heq
    cases heq
  · rename_i cv' heq
    rw [hc] at heq
    injection heq with heq
    subst heq
    split
    · rename_i heq2
      rw [ht] at heq2
      cases heq2
    · rename_i tv' heq2
      rw [ht] at heq2
      injection heq2 with heq2
      subst heq2
      rw [if_neg (by rw [hpe]; exact Bool.false_ne_true)]

/-- Over any set of keys actually bound somewhere, two `pyEq`-equal dicts
yield an empty diff: every key is bound on both sides to equal values. -/
theorem diffGo_pyEq_empty (c t : List (String × JVal))
    (hpy : pyEq (.jobj c) (.jobj t) = true) :
    ∀ keys : List String, (∀ k ∈ keys, k ∈ c.map Prod.fst ∨ k ∈ t.map Prod.fst) →
      diffGo c t keys = .ok [] := by
  intro keys hkeys
  induction keys with
  | nil => rw [diffGo]
  | cons k ks ih =>
    have hk := hkeys k (List.mem_cons_self ..)
    have hcsome : (jlookup c k).isSome := by
      rcases hk with hk | hk
      · rw [jlookup_isSome_iff]
        exact hk
      · exact pyEq_obj_key_sub hpy hk
    cases hsome : jlookup c k with
    | none => rw [hsome] at hcsome; simp at hcsome
    | some cv =>
      obtain ⟨tv, htv, hpyv⟩ := pyEq_obj_lookup hpy hsome
      rw [diffGo_cons_eq ks hsome htv hpyv]
      exact ih (fun x hx => hkeys x (List.mem_cons_of_mem _ hx))

/-- Whenever the key loop yields a report, each reported key has genuinely
differing values: it is never bound on both sides to `pyEq`-equal values. -/
theorem diffGo_mem_ne (c t : List (String × JVal)) :
    ∀ (keys : List String) (r : List (String × DiffEntry)),
      diffGo c t keys = .ok r → ∀ (k : String) (e : DiffEntry), (k, e) ∈ r →
      ¬∃ cv tv, jlookup c k = some cv ∧ jlookup t k = some tv ∧ pyEq cv tv = true := by
  intro keys
  induction keys with
  | nil =>
    intro r h k e hm
    rw [diffGo] at h
    injection h with h2
    subst h2
    simp at hm
  | cons k' ks ih =>
    intro r h k e hm
    cases hc : jlookup c k' with
    | none =>
      rw [diffGo_cons_none ks hc] at h
      obtain ⟨r', hrec, rfl⟩ := except_map_eq_ok _ _ _ h
      rcases List.mem_cons.1 hm with heq | hm'
      · obtain ⟨rfl, rfl⟩ := Prod.mk.injEq .. |>.mp heq
        rintro ⟨cv, tv, hcv, -, -⟩
        rw [hc] at hcv
        cases hcv
      · exact ih r' hrec k e hm'
    | some cv =>
      cases ht : jlookup t k' with
      | none =>
        rw [diffGo_cons_removed ks hc ht] at h
        obtain ⟨r', hrec, rfl⟩ := except_map_eq_ok _ _ _ h
        rcases List.mem_cons.1 hm with heq | hm'
        · obtain ⟨rfl, rfl⟩ := Prod.mk.injEq .. |>.mp heq
          rintro ⟨cv', tv, -, htv, -⟩
          rw [ht] at htv
          cases htv
        · exact ih r' hrec k e hm'
      | some tv =>
        by_cases hpe : pyEq cv tv = true
        · rw [diffGo_cons_eq ks hc ht hpe] at h
          exact ih r h k e hm
        · have hpef : pyEq cv tv = false := by simpa using hpe
          by_cases hcobj : ∃ ckvs, cv = JVal.jobj ckvs
          · obtain ⟨ckvs, rfl⟩ := hcobj
            by_cases htobj : ∃ tkvs, tv = JVal.jobj tkvs
            · obtain ⟨tkvs, rfl⟩ := htobj
              rw [diffGo_cons_nested ks hc ht hpef] at h
              rcases hinner : diffGo ckvs tkvs (unionKeys ckvs tkvs) with e' | child <;>
                rw [hinner] at h
              · cases h
              · obtain ⟨r', hrec, rfl⟩ := except_map_eq_ok _ _ _ h
                rcases List.mem_cons.1 hm with heq | hm'
                · have hkk : k = k' := by
                    split at heq <;> exact (Prod.mk.injEq .. |>.mp heq).1
                  subst hkk
                  rintro ⟨cv', tv', hcv', htv', hpy'⟩
                  rw [hc] at hcv'
                  rw [ht] at htv'
                  injection hcv' with hcv'
                  injection htv' with htv'
                  subst hcv'
                  subst htv'
                  rw [hpy'] at hpef
                  cases hpef
                · exact ih r' hrec k e hm'
            · rw [diffGo_cons_typeerror ks hc ht hpef
                (fun tkvs hh => htobj ⟨tkvs, hh⟩)] at h
              cases h
          · rw [diffGo_cons_changed ks hc ht hpef
              (fun kvs hh => hcobj ⟨kvs, hh⟩)] at h
            obtain ⟨r', hrec, rfl⟩ := except_map_eq_ok _ _ _ h
            rcases List.mem_cons.1 hm with heq | hm'
            · obtain ⟨rfl, rfl⟩ := Prod.mk.injEq .. |>.mp heq
              rintro ⟨cv', tv', hcv', htv', hpy'⟩
              rw [hc] at hcv'
              rw [ht] at htv'
              injection hcv' with hcv'
              injection htv' with htv'
              subst hcv'
              subst htv'
              rw [hpy'] at hpef
              cases hpef
            · exact ih r' hrec k e hm'

/-- C7: for every pair of Python-equal documents `diff_json` returns an empty
report; and, whenever it returns a report at all, that report has no entry for
a key whose current and target values are both present and equal — entries
exist only where values genuinely differ. -/
theorem C7_diff_equal_empty :
    (∀ c t : List (String × JVal), pyEq (.jobj c) (.jobj t) = true →
      diff_json c t = .ok []) ∧
    (∀ (c t : List (String × JVal)) (r : List (String × DiffEntry)) (k : String)
        (e : DiffEntry), diff_json c t = .ok r → (k, e) ∈ r →
      ¬∃ cv tv, jlookup c k = some cv ∧ jlookup t k = some tv ∧
        pyEq cv tv = true) := by
  constructor
  · intro c t hpy
    exact diffGo_pyEq_empty c t hpy (unionKeys c t) (fun k hk => mem_unionKeys.1 hk)
  · intro c t r k e h hm
    exact diffGo_mem_ne c t (unionKeys c t) r h k e hm

/-- If some processed key is bound to a dict in the current document and to a
non-dict in the target, with unequal values, the whole key loop raises. -/
theorem diffGo_error_of_bad_key (c t : List (String × JVal)) (k : String)
    (ckvs : List (String × JVal)) (tv : JVal)
    (hc : jlookup c k = some (JVal.jobj ckvs)) (ht : jlookup t k = some tv)
    (hpe : pyEq (JVal.jobj ckvs) tv = false) (hnobj : ∀ tkvs, tv ≠ JVal.jobj tkvs) :
    ∀ keys : List String, k ∈ keys → diffGo c t keys = .error () := by
  intro keys
  induction keys with
  | nil => intro hmem; simp at hmem
  | cons k' ks ih =>
    intro hmem
    by_cases hk : k' = k
    · subst hk
      exact diffGo_cons_typeerror ks hc ht hpe hnobj
    · have hmem' : k ∈ ks := by
        rcases List.mem_cons.1 hmem with h | h
        · exact absurd h.symm hk
        · exact h
      have herr := ih hmem'
      cases hc' : jlookup c k' with
      | none =>
        rw [diffGo_cons_none ks hc', herr]
        rfl
      | some cv' =>
        cases ht' : jlookup t k' with
        | none =>
          rw [diffGo_cons_removed ks hc' ht', herr]
          rfl
        | some tv' =>
          by_cases hpe' : pyEq cv' tv' = true
          · rw [diffGo_cons_eq ks hc' ht' hpe', herr]
          · have hpef' : pyEq cv' tv' = false := by simpa using hpe'
            by_cases hcobj : ∃ kvs, cv' = JVal.jobj kvs
            · obtain ⟨ckvs', rfl⟩ := hcobj
              by_cases htobj : ∃ tkvs, tv' = JVal.jobj tkvs
              · obtain ⟨tkvs', rfl⟩ := htobj
                rw [diffGo_cons_nested ks hc' ht' hpef']
                rcases hinner : diffGo ckvs' tkvs' (unionKeys ckvs' tkvs') with e' | child
                · rfl
                · rw [herr]
                  rfl
              · rw [diffGo_cons_typeerror ks hc' ht' hpef'
                  (fun tkvs hh => htobj ⟨tkvs, hh⟩)]
            · rw [diffGo_cons_changed ks hc' ht' hpef'
                (fun kvs hh => hcobj ⟨kvs, hh⟩), herr]
              rfl

/-- A key bound in both documents to unequal values, the current one not a
dict, contributes its `Changed` entry to any report the key loop produces. -/
theorem diffGo_changed_mem (c t : List (String × JVal)) (k : String) (cv tv : JVal)
    (hc : jlookup c k = some cv) (ht : jlookup t k = some tv)
    (hpe : pyEq cv tv = false) (hnobj : ∀ kvs, cv ≠ JVal.jobj kvs) :
    ∀ (keys : List String) (r : List (String × DiffEntry)), k ∈ keys →
      diffGo c t keys = .ok r → (k, DiffEntry.changed cv tv) ∈ r := by
  intro keys
  induction keys with
  | nil => intro r hmem; simp at hmem
  | cons k' ks ih =>
    intro r hmem h
    by_cases hk : k' = k
    · subst hk
      rw [diffGo_cons_changed ks hc ht hpe hnobj] at h
      obtain ⟨r', hrec, rfl⟩ := except_map_eq_ok _ _ _ h
      exact List.mem_cons_self ..
    · have hmem' : k ∈ ks := by
        rcases List.mem_cons.1 hmem with hx | hx
        · exact absurd hx.symm hk
        · exact hx
      cases hc' : jlookup c k' with
      | none =>
        rw [diffGo_cons_none ks hc'] at h
        obtain ⟨r', hrec, rfl⟩ := except_map_eq_ok _ _ _ h
        exact List.mem_cons_of_mem _ (ih r' hmem' hrec)
      | some cv' =>
        cases ht' : jlookup t k' with
        | none =>
          rw [diffGo_cons_removed ks hc' ht'] at h
          obtain ⟨r', hrec, rfl⟩ := except_map_eq_ok _ _ _ h
          exact List.mem_cons_of_mem _ (ih r' hmem' hrec)
        | some tv' =>
          by_cases hpe' : pyEq cv' tv' = true
          · rw [diffGo_cons_eq ks hc' ht' hpe'] at h
            exact ih r hmem' h
          · have hpef' : pyEq cv' tv' = false := by simpa using hpe'
            by_cases hcobj : ∃ kvs, cv' = JVal.jobj kvs
            · obtain ⟨ckvs', rfl⟩ := hcobj
              by_cases htobj : ∃ tkvs, tv' = JVal.jobj tkvs
              · obtain ⟨tkvs', rfl⟩ := htobj
                rw [diffGo_cons_nested ks hc' ht' hpef'] at h
                rcases hinner : diffGo ckvs' tkvs' (unionKeys ckvs' tkvs') with e' | child <;>
                  rw [hinner] at h
                · cases h
                · obtain ⟨r', hrec, rfl⟩ := except_map_eq_ok _ _ _ h
                  exact List.mem_cons_of_mem _ (ih r' hmem' hrec)
              · rw [diffGo_cons_typeerror ks hc' ht' hpef'
                  (fun tkvs hh => htobj ⟨tkvs, hh⟩)] at h
                cases h
            · rw [diffGo_cons_changed ks hc' ht' hpef'
                (fun kvs hh => hcobj ⟨kvs, hh⟩)] at h
              obtain ⟨r', hrec, rfl⟩ := except_map_eq_ok _ _ _ h
              exact List.mem_cons_of_mem _ (ih r' hmem' hrec)

/-- A key bound in both documents to unequal dict values contributes, to any
report the key loop produces, the nested recursive report when that is
non-empty and the sentinel entry when it is empty. -/
theorem diffGo_nested_mem (c t : List (String × JVal)) (k : String)
    (ckvs tkvs : List (String × JVal))
    (hc : jlookup c k = some (JVal.jobj ckvs)) (ht : jlookup t k = some (JVal.jobj tkvs))
    (hpe : pyEq (JVal.jobj ckvs) (JVal.jobj tkvs) = false) :
    ∀ (keys : List String) (r : List (String × DiffEntry)), k ∈ keys →
      diffGo c t keys = .ok r →
      ∃ child, diffGo ckvs tkvs (unionKeys ckvs tkvs) = .ok child ∧
        ((child ≠ [] ∧ (k, DiffEntry.nested child) ∈ r) ∨
          (child = [] ∧ (k, DiffEntry.sentinel) ∈ r)) := by
  intro keys
  induction keys with
  | nil => intro r hmem; simp at hmem
  | cons k' ks ih =>
    intro r hmem h
    by_cases hk : k' = k
    · subst hk
      rw [diffGo_cons_nested ks hc ht hpe] at h
      rcases hinner : diffGo ckvs tkvs (unionKeys ckvs tkvs) with e' | child <;>
        rw [hinner] at h
      · cases h
      · obtain ⟨r', hrec, rfl⟩ := except_map_eq_ok _ _ _ h
        refine ⟨child, rfl, ?_⟩
        cases child with
        | nil => exact Or.inr ⟨rfl, by simp⟩
        | cons x xs => exact Or.inl ⟨by simp, by simp⟩
    · have hmem' : k ∈ ks := by
        rcases List.mem_cons.1 hmem with hx | hx
        · exact absurd hx.symm hk
        · exact hx
      cases hc' : jlookup c k' with
      | none =>
        rw [diffGo_cons_none ks hc'] at h
        obtain ⟨r', hrec, rfl⟩ := except_map_eq_ok _ _ _ h
        obtain ⟨child, hch, hor⟩ := ih r' hmem' hrec
        refine ⟨child, hch, ?_⟩
        rcases hor with ⟨hne, hmem2⟩ | ⟨hnil, hmem2⟩
        · exact Or.inl ⟨hne, List.mem_cons_of_mem _ hmem2⟩
        · exact Or.inr ⟨hnil, List.mem_cons_of_mem _ hmem2⟩
      | some cv' =>
        cases ht' : jlookup t k' with
        | none =>
          rw [diffGo_cons_removed ks hc' ht'] at h
          obtain ⟨r', hrec, rfl⟩ := except_map_eq_ok _ _ _ h
          obtain ⟨child, hch, hor⟩ := ih r' hmem' hrec
          refine ⟨child, hch, ?_⟩
          rcases hor with ⟨hne, hmem2⟩ | ⟨hnil, hmem2⟩
          · exact Or.inl ⟨hne, List.mem_cons_of_mem _ hmem2⟩
          · exact Or.inr ⟨hnil, List.mem_cons_of_mem _ hmem2⟩
        | some tv' =>
          by_cases hpe' : pyEq cv' tv' = true
          · rw [diffGo_cons_eq ks hc' ht' hpe'] at h
            exact ih r hmem' h
          · have hpef' : pyEq cv' tv' = false := by simpa using hpe'
            by_cases hcobj : ∃ kvs, cv' = JVal.jobj kvs
            · obtain ⟨ckvs', rfl⟩ := hcobj
              by_cases htobj : ∃ tkvs2, tv' = JVal.jobj tkvs2
              · obtain ⟨tkvs', rfl⟩ := htobj
                rw [diffGo_cons_nested ks hc' ht' hpef'] at h
                rcases hinner : diffGo ckvs' tkvs' (unionKeys ckvs' tkvs') with e' | child' <;>
                  rw [hinner] at h
                · cases h
                · obtain ⟨r', hrec, rfl⟩ := except_map_eq_ok _ _ _ h
                  obtain ⟨child, hch, hor⟩ := ih r' hmem' hrec
                  refine ⟨child, hch, ?_⟩
                  rcases hor with ⟨hne, hmem2⟩ | ⟨hnil, hmem2⟩
                  · exact Or.inl ⟨hne, List.mem_cons_of_mem _ hmem2⟩
                  · exact Or.inr ⟨hnil, List.mem_cons_of_mem _ hmem2⟩
              · rw [diffGo_cons_typeerror ks hc' ht' hpef'
                  (fun tkvs2 hh => htobj ⟨tkvs2, hh⟩)] at h
                cases h
            · rw [diffGo_cons_changed ks hc' ht' hpef'
                (fun kvs hh => hcobj ⟨kvs, hh⟩)] at h
              obtain ⟨r', hrec, rfl⟩ := except_map_eq_ok _ _ _ h
              obtain ⟨child, hch, hor⟩ := ih r' hmem' hrec
              refine ⟨child, hch, ?_⟩
              rcases hor with ⟨hne, hmem2⟩ | ⟨hnil, hmem2⟩
              · exact Or.inl ⟨hne, List.mem_cons_of_mem _ hmem2⟩
              · exact Or.inr ⟨hnil, List.mem_cons_of_mem _ hmem2⟩

theorem jlookup_mem_unionKeys {c t : List (String × JVal)} {k : String} {v : JVal}
    (hc : jlookup c k = some v) : k ∈ unionKeys c t := by
  rw [mem_unionKeys]
  left
  rw [← jlookup_isSome_iff, hc]
  rfl

/-- C3 counterexample: at key `"k"` the current value `{}` is a mapping node
and the target value `1` is not, so by the claim a `Changed` entry should be
emitted; instead the code, which tests only the current value's type,
recurses into the pair and fails with a type error, producing no report. -/
theorem C3_counterexample :
    diff_json [("k", JVal.jobj [])] [("k", JVal.jnum 1)] = .error () := by
  have hc : jlookup [("k", JVal.jobj [])] "k" = some (JVal.jobj []) := rfl
  have ht : jlookup [("k", JVal.jnum 1)] "k" = some (JVal.jnum 1) := rfl
  have hpe : pyEq (JVal.jobj []) (JVal.jnum 1) = false := by simp [pyEq]
  exact diffGo_error_of_bad_key _ _ "k" [] (JVal.jnum 1) hc ht hpe
    (fun tkvs hh => JVal.noConfusion hh) _ (jlookup_mem_unionKeys hc)

/-- C3 (amended): for a key present in both documents with unequal values,
the differ recurses if and only if the CURRENT value is a mapping node — the
target value's type is never inspected.  When the current value is not a
mapping, a `Changed` entry carrying the literal before and after values is
emitted; when both values are mappings, the recursive report is nested under
the key if non-empty and the sentinel "child diff but no changes found" is
emitted if empty; and when the current value is a mapping but the target
value is not, the recursion fails with a type error instead of emitting
anything. -/
theorem C3_diff_recursion_on_current_dict :
    (∀ (c t : List (String × JVal)) (k : String) (cv tv : JVal)
        (r : List (String × DiffEntry)),
        jlookup c k = some cv → jlookup t k = some tv → pyEq cv tv = false →
        (∀ kvs, cv ≠ JVal.jobj kvs) → diff_json c t = .ok r →
        (k, DiffEntry.changed cv tv) ∈ r) ∧
    (∀ (c t : List (String × JVal)) (k : String) (ckvs : List (String × JVal))
        (tv : JVal),
        jlookup c k = some (JVal.jobj ckvs) → jlookup t k = some tv →
        pyEq (JVal.jobj ckvs) tv = false → (∀ tkvs, tv ≠ JVal.jobj tkvs) →
        diff_json c t = .error ()) ∧
    (∀ (c t ckvs tkvs : List (String × JVal)) (k : String)
        (r : List (String × DiffEntry)),
        jlookup c k = some (JVal.jobj ckvs) → jlookup t k = some (JVal.jobj tkvs) →
        pyEq (JVal.jobj ckvs) (JVal.jobj tkvs) = false → diff_json c t = .ok r →
        ∃ child, diff_json ckvs tkvs = .ok child ∧
          ((child ≠ [] ∧ (k, DiffEntry.nested child) ∈ r) ∨
            (child = [] ∧ (k, DiffEntry.sentinel) ∈ r))) := by
  refine ⟨?_, ?_, ?_⟩
  · intro c t k cv tv r hc ht hpe hnobj h
    exact diffGo_changed_mem c t k cv tv hc ht hpe hnobj (unionKeys c t) r
      (jlookup_mem_unionKeys hc) h
  · intro c t k ckvs tv hc ht hpe hnobj
    exact diffGo_error_of_bad_key c t k ckvs tv hc ht hpe hnobj (unionKeys c t)
      (jlookup_mem_unionKeys hc)
  · intro c t ckvs tkvs k r hc ht hpe h
    exact diffGo_nested_mem c t k ckvs tkvs hc ht hpe (unionKeys c t) r
      (jlookup_mem_unionKeys hc) h

theorem C3_diff_recursion_on_current_dict_witness :
    diff_json [("a", JVal.jnum 1)] [("a", JVal.jnum 2)] =
      .ok [("a", DiffEntry.changed (JVal.jnum 1) (JVal.jnum 2))] ∧
    ("a", DiffEntry.changed (JVal.jnum 1) (JVal.jnum 2)) ∈
      [("a", DiffEntry.changed (JVal.jnum 1) (JVal.jnum 2))] := by
  have hc : jlookup [("a", JVal.jnum 1)] "a" = some (JVal.jnum 1) := rfl
  have ht : jlookup [("a", JVal.jnum 2)] "a" = some (JVal.jnum 2) := rfl
  have hpe : pyEq (JVal.jnum 1) (JVal.jnum 2) = false := by rw [pyEq]; rfl
  have heval : diff_json [("a", JVal.jnum 1)] [("a", JVal.jnum 2)] =
      .ok [("a", DiffEntry.changed (JVal.jnum 1) (JVal.jnum 2))] := by
    show diffGo _ _ (unionKeys _ _) = _
    have hu : unionKeys [("a", JVal.jnum 1)] [("a", JVal.jnum 2)] = ["a"] := rfl
    rw [hu, diffGo_cons_changed [] hc ht hpe (fun kvs hh => JVal.noConfusion hh),
      diffGo]
    rfl
  refine ⟨heval, ?_⟩
  exact C3_diff_recursion_on_current_dict.1 _ _ "a" _ _ _ hc ht hpe
    (fun kvs hh => JVal.noConfusion hh) heval

theorem C7_diff_equal_empty_witness :
    pyEq (JVal.jobj [("a", JVal.jnum 1), ("b", JVal.jnum 2)])
      (JVal.jobj [("b", JVal.jnum 2), ("a", JVal.jnum 1)]) = true ∧
    diff_json [("a", JVal.jnum 1), ("b", JVal.jnum 2)]
      [("b", JVal.jnum 2), ("a", JVal.jnum 1)] = .ok [] := by
  have hpy : pyEq (JVal.jobj [("a", JVal.jnum 1), ("b", JVal.jnum 2)])
      (JVal.jobj [("b", JVal.jnum 2), ("a", JVal.jnum 1)]) = true := by
    simp [pyEq, jlookup]
  exact ⟨hpy, C7_diff_equal_empty.1 _ _ hpy⟩

theorem params_delta_of_plookup_self (cur : List (String × String)) :
    ∀ target : List (String × PyVal),
      (∀ p ∈ cur, plookup target p.1 = some (PyVal.pstr p.2)) →
      params_delta cur target = [] := by
  induction cur with
  | nil => intro target _; rfl
  | cons p rest ih =>
    intro target h
    obtain ⟨k, v⟩ := p
    rw [params_delta, h (k, v) (List.mem_cons_self ..)]
    dsimp only
    rw [if_neg (by simp [PyVal.pyStr])]
    rw [List.nil_append]
    exact ih target (fun q hq => h q (List.mem_cons_of_mem _ hq))

theorem plookup_map_self (cur : List (String × String)) :
    (cur.map Prod.fst).Nodup →
    ∀ p ∈ cur, plookup (cur.map (fun q => (q.1, PyVal.pstr q.2))) p.1 =
      some (PyVal.pstr p.2) := by
  induction cur with
  | nil => intro _ p hp; simp at hp
  | cons q rest ih =>
    intro h p hp
    obtain ⟨k, v⟩ := q
    simp only [List.map_cons] at h
    obtain ⟨hknotin, hnd⟩ := List.nodup_cons.1 h
    rw [List.map_cons, plookup]
    rcases List.mem_cons.1 hp with rfl | hp'
    · rw [if_pos rfl]
    · have hk : k ≠ p.1 := by
        intro hkk
        exact hknotin (hkk ▸ List.mem_map.2 ⟨p, hp', rfl⟩)
      rw [if_neg hk]
      exact ih hnd p hp'

/-- With an absent stack `planned_changes` returns no reasons: the stack will
be created. -/
theorem planned_changes_absent (parse : String → Except Unit (List (String × JVal)))
    (st : StackState) (h : st.present = false) :
    planned_changes parse st = .ok [] := by
  rw [planned_changes, if_pos h]

/-- With a present stack, textually identical templates and literally
identical parameters (duplicate-free keys), `planned_changes` returns no
reasons. -/
theorem planned_changes_noop (parse : String → Except Unit (List (String × JVal)))
    (st : StackState) (curPs : List (String × String))
    (hp : st.present = true) (htmpl : st.target_template = st.current_template)
    (hcur : st.current_parameters = some curPs)
    (htgt : st.target_parameters = curPs.map (fun q => (q.1, PyVal.pstr q.2)))
    (hnd : (curPs.map Prod.fst).Nodup) :
    planned_changes parse st = .ok [] := by
  have hdelta : params_delta curPs st.target_parameters = [] := by
    rw [htgt]
    exact params_delta_of_plookup_self curPs _ (plookup_map_self curPs hnd)
  simp [planned_changes, hp, htmpl, hcur, hdelta]
  rfl

theorem except_bind_ok {α β : Type} (a : α) (f : α → Except Unit β) :
    (Except.ok a >>= f) = f a := rfl

/-- `check` with the pending-changes list already computed: the source's
`if`/`elif` chain over `(target_state, present, len(pending_updates))`. -/
theorem check_eval (parse : String → Except Unit (List (String × JVal)))
    (st : StackState) (pending : List Reason)
    (h : planned_changes parse st = .ok pending) :
    check parse st =
      if st.target_state = .present ∧ st.present = false then .ok (true, .wouldCreate)
      else if st.target_state = .present ∧ pending.length > 0 then
        .ok (true, .wouldUpdate pending)
      else if st.target_state = .present ∧ pending.length = 0 then
        .ok (false, .upToDate)
      else if st.target_state = .absent ∧ st.present = true then
        .ok (true, .willDelete)
      else if st.target_state = .absent ∧ st.present = false then
        .ok (false, .missing)
      else if st.target_state = .described then .ok (false, .describedOnly)
      else .error () := by
  rw [check, h, except_bind_ok]
  rfl

/-- C4: the dry-run decision follows the `(target_state, existence)` state
machine — target `present` with an absent stack is Create (changed) whatever
the diff would be; target `present` with a present stack, identical template
and identical parameters is NoOp (unchanged); target `present` with a
non-empty set of pending changes is Update (changed, carrying the changes);
target `absent` is Delete (changed) when the stack exists and NoOp
(unchanged) when it does not; target `described` is always NoOp
(unchanged). -/
theorem C4_check_state_machine :
    (∀ (parse : String → Except Unit (List (String × JVal))) (st : StackState),
        st.target_state = .present → st.present = false →
        check parse st = .ok (true, .wouldCreate)) ∧
    (∀ (parse : String → Except Unit (List (String × JVal))) (st : StackState)
        (curPs : List (String × String)),
        st.target_state = .present → st.present = true →
        st.target_template = st.current_template →
        st.current_parameters = some curPs →
        st.target_parameters = curPs.map (fun q => (q.1, PyVal.pstr q.2)) →
        (curPs.map Prod.fst).Nodup →
        check parse st = .ok (false, .upToDate)) ∧
    (∀ (parse : String → Except Unit (List (String × JVal))) (st : StackState)
        (pending : List Reason),
        st.target_state = .present → st.present = true →
        planned_changes parse st = .ok pending → pending ≠ [] →
        check parse st = .ok (true, .wouldUpdate pending)) ∧
    (∀ (parse : String → Except Unit (List (String × JVal))) (st : StackState)
        (pending : List Reason),
        st.target_state = .absent → st.present = true →
        planned_changes parse st = .ok pending →
        check parse st = .ok (true, .willDelete)) ∧
    (∀ (parse : String → Except Unit (List (String × JVal))) (st : StackState),
        st.target_state = .absent → st.present = false →
        check parse st = .ok (false, .missing)) ∧
    (∀ (parse : String → Except Unit (List (String × JVal))) (st : StackState)
        (pending : List Reason),
        st.target_state = .described →
        planned_changes parse st = .ok pending →
        check parse st = .ok (false, .describedOnly)) := by
  refine ⟨?_, ?_, ?_, ?_, ?_, ?_⟩
  · intro parse st h1 h2
    rw [check_eval parse st [] (planned_changes_absent parse st h2)]
    rw [if_pos ⟨h1, h2⟩]
  · intro parse st curPs h1 h2 h3 h4 h5 h6
    rw [check_eval parse st [] (planned_changes_noop parse st curPs h2 h3 h4 h5 h6)]
    rw [if_neg (fun hh => by rw [h2] at hh; exact Bool.noConfusion hh.2)]
    rw [if_neg (fun hh => by simp at hh)]
    rw [if_pos ⟨h1, rfl⟩]
  · intro parse st pending h1 h2 hpl hne
    rw [check_eval parse st pending hpl]
    rw [if_neg (fun hh => by rw [h2] at hh; exact Bool.noConfusion hh.2)]
    rw [if_pos ⟨h1, List.length_pos.mpr hne⟩]
  · intro parse st pending h1 h2 hpl
    rw [check_eval parse st pending hpl]
    rw [if_neg (fun hh => by rw [h1] at hh; cases hh.1)]
    rw [if_neg (fun hh => by rw [h1] at hh; cases hh.1)]
    rw [if_neg (fun hh => by rw [h1] at hh; cases hh.1)]
    rw [if_pos ⟨h1, h2⟩]
  · intro parse st h1 h2
    rw [check_eval parse st [] (planned_changes_absent parse st h2)]
    rw [if_neg (fun hh => by rw [h1] at hh; cases hh.1)]
    rw [if_neg (fun hh => by rw [h1] at hh; cases hh.1)]
    rw [if_neg (fun hh => by rw [h1] at hh; cases hh.1)]
    rw [if_neg (fun hh => by rw [h2] at hh; exact Bool.noConfusion hh.2)]
    rw [if_pos ⟨h1, h2⟩]
  · intro parse st pending h1 hpl
    rw [check_eval parse st pending hpl]
    rw [if_neg (fun hh => by rw [h1] at hh; cases hh.1)]
    rw [if_neg (fun hh => by rw [h1] at hh; cases hh.1)]
    rw [if_neg (fun hh => by rw [h1] at hh; cases hh.1)]
    rw [if_neg (fun hh => by rw [h1] at hh; cases hh.1)]
    rw [if_neg (fun hh => by rw [h1] at hh; cases hh.1)]
    rw [if_pos h1]

theorem C4_check_state_machine_witness :
    check (fun _ => .error ())
      ⟨.present, some "T", [], false, none, none⟩ = .ok (true, .wouldCreate) ∧
    check (fun _ => .error ())
      ⟨.present, some "T", [("A", PyVal.pstr "1")], true, some "T",
        some [("A", "1")]⟩ = .ok (false, .upToDate) ∧
    check (fun _ => .error ())
      ⟨.absent, some "T", [], true, some "T", some []⟩ = .ok (true, .willDelete) ∧
    check (fun _ => .error ())
      ⟨.absent, some "T", [], false, none, none⟩ = .ok (false, .missing) ∧
    check (fun _ => .error ())
      ⟨.described, some "T", [], true, some "T", some []⟩ =
      .ok (false, .describedOnly) := by
  obtain ⟨hcreate, hnoop, hupdate, hdelete, hmissing, hdesc⟩ := C4_check_state_machine
  refine ⟨hcreate _ _ rfl rfl, ?_, ?_, hmissing _ _ rfl rfl, ?_⟩
  · exact hnoop _ _ [("A", "1")] rfl rfl rfl rfl rfl (by simp)
  · exact hdelete _ _ [] rfl rfl
      (planned_changes_noop _ _ [] rfl rfl rfl rfl (by simp))
  · exact hdesc _ _ [] rfl
      (planned_changes_noop _ _ [] rfl rfl rfl rfl (by simp))

end CloudFormation
